import Mathlib

/-!
Shallow embedding of `src/packages/bundler-plugin-core/src/options-mapping.ts`
from getsentry/hackweek-sentry-unplugin: normalization of user-supplied plugin
options into fully-resolved internal options, with defaulting, environment
fallbacks, shorthand expansion and per-entry option hoisting.

TypeScript `x ?? y` is modelled by `nullish`/`nullishD` on `Option`;
`string | string[]` unions by `StringOrList`; the shape-polymorphic
`include` and `entries` options by dedicated inductive types. The ambient
`process.env` snapshot is passed explicitly as an `Env` value, keeping the
normalizer a pure function of its inputs.
-/

namespace SentryUnplugin

/-- TS union `string | string[]`, used for the `ignore` option. -/
inductive StringOrList where
  | str (s : String)
  | list (l : List String)
deriving DecidableEq, Repr

/-- A matcher for the `entries` option: a string or a RegExp
(a RegExp is kept abstractly as its pattern source). -/
inductive Matcher where
  | str (s : String)
  | regex (pattern : String)
deriving DecidableEq, Repr

/-- User-facing `entries` option value when present: a single bare matcher,
an ordered sequence of matchers, or a predicate on file paths. -/
inductive UserEntries where
  | single (m : Matcher)
  | list (ms : List Matcher)
  | fn (f : String → Bool)

/-- Internal `entries` value after normalization:
`(string | RegExp)[] | ((filePath: string) => boolean)`. -/
inductive InternalEntries where
  | list (ms : List Matcher)
  | fn (f : String → Bool)

/-- `IncludeEntry` from `./types` as used by `options-mapping.ts`:
`paths` is required, every other field optional. -/
structure UserIncludeEntry where
  paths : List String
  ignore : Option StringOrList := none
  ignoreFile : Option String := none
  ext : Option (List String) := none
  urlPrefix : Option String := none
  urlSuffix : Option String := none
  stripPrefix : Option String := none
  stripCommonPrefix : Option Bool := none
  sourceMapReference : Option Bool := none
  rewrite : Option Bool := none
  validate : Option Bool := none
deriving DecidableEq, Repr

/-- The user-facing `include` option:
`string | IncludeEntry | (string | IncludeEntry)[]`. -/
inductive UserInclude where
  | path (p : String)
  | entry (e : UserIncludeEntry)
  | list (xs : List (String ⊕ UserIncludeEntry))
deriving DecidableEq, Repr

/-- User-facing `Options` (the fields `options-mapping.ts` reads).
`setCommits`, `deploy`, `errorHandler`, `dist`, `configFile` are opaque
pass-through payloads (their types live in `./types`, not inspected here),
modelled atomically as strings. -/
structure UserOptions where
  «include» : UserInclude
  org : Option String := none
  project : Option String := none
  authToken : Option String := none
  url : Option String := none
  vcsRemote : Option String := none
  customHeader : Option String := none
  release : Option String := none
  dist : Option String := none
  errorHandler : Option String := none
  setCommits : Option String := none
  deploy : Option String := none
  configFile : Option String := none
  finalize : Option Bool := none
  cleanArtifacts : Option Bool := none
  dryRun : Option Bool := none
  debug : Option Bool := none
  silent : Option Bool := none
  telemetry : Option Bool := none
  injectReleasesMap : Option Bool := none
  entries : Option UserEntries := none
  ignore : Option StringOrList := none
  ignoreFile : Option String := none
  ext : Option (List String) := none
  urlPrefix : Option String := none
  urlSuffix : Option String := none
  stripPrefix : Option String := none
  stripCommonPrefix : Option Bool := none
  sourceMapReference : Option Bool := none
  rewrite : Option Bool := none
  validate : Option Bool := none

/-- Snapshot of the `process.env` variables the normalizer reads. -/
structure Env where
  SENTRY_ORG : Option String := none
  SENTRY_PROJECT : Option String := none
  SENTRY_RELEASE : Option String := none
  SENTRY_AUTH_TOKEN : Option String := none
  CUSTOM_HEADER : Option String := none
  SENTRY_URL : Option String := none
  SENTRY_VCS_REMOTE : Option String := none
deriving DecidableEq, Repr

/-- `InternalIncludeEntry`: required `paths`, `ext`, `stripCommonPrefix`,
`sourceMapReference`, `rewrite`, `validate`, always-present `ignore`,
optional `ignoreFile`, `urlPrefix`, `urlSuffix`, `stripPrefix`. -/
structure InternalIncludeEntry where
  paths : List String
  ignore : List String
  ignoreFile : Option String
  ext : List String
  urlPrefix : Option String
  urlSuffix : Option String
  stripPrefix : Option String
  stripCommonPrefix : Bool
  sourceMapReference : Bool
  rewrite : Bool
  validate : Bool
deriving DecidableEq, Repr

/-- `InternalOptions`: the fully-resolved output record. -/
structure InternalOptions where
  «include» : List InternalIncludeEntry
  org : Option String
  project : Option String
  release : String
  authToken : Option String
  customHeader : Option String
  url : String
  vcsRemote : String
  finalize : Bool
  cleanArtifacts : Bool
  dryRun : Bool
  debug : Bool
  silent : Bool
  telemetry : Bool
  injectReleasesMap : Bool
  setCommits : Option String
  deploy : Option String
  entries : Option InternalEntries
  dist : Option String
  errorHandler : Option String
  configFile : Option String

/-- TS nullish coalescing `a ?? b` on optional values. -/
def nullish {α : Type} (a b : Option α) : Option α :=
  match a with
  | some v => some v
  | none => b

/-- TS nullish coalescing `a ?? d` against a present default `d`. -/
def nullishD {α : Type} (a : Option α) (d : α) : α :=
  match a with
  | some v => v
  | none => d

/-- `Array.isArray(x) ? x : [x]`: wrap a bare string into a one-element list. -/
def arrayify : StringOrList → List String
  | .str s => [s]
  | .list l => l

/-- `extension.replace(/^\./, "")`: strip a single leading dot if present. -/
def stripLeadingDot (s : String) : String :=
  match s.data with
  | [] => s
  | c :: rest => if c = '.' then String.mk rest else s

/-- The per-extension coercion in `normalizeIncludeEntry`:
the template literal `.${extension.replace(/^\./, "")}`. -/
def dotPrefixed (s : String) : String :=
  "." ++ stripLeadingDot s

/-- `convertIncludePathToIncludeEntry`: a bare path string becomes a minimal
entry whose only set field is a one-element `paths` sequence. -/
def convertIncludePathToIncludeEntry (includePath : String) : UserIncludeEntry :=
  { paths := [includePath] }

/-- The lambda in `normalizeInclude`'s array branch: a string element is
converted to a path entry, an entry object passes through. -/
def toUserIncludeEntry : String ⊕ UserIncludeEntry → UserIncludeEntry
  | .inl s => convertIncludePathToIncludeEntry s
  | .inr e => e

/-- `normalizeIncludeEntry`: hoists top-level options into the entry,
array-ifies `ignore`, and dot-prefixes each `ext` extension. -/
def normalizeIncludeEntry (userOptions : UserOptions)
    (includeEntry : UserIncludeEntry) : InternalIncludeEntry :=
  let ignoreOption :=
    nullishD (nullish (UserIncludeEntry.ignore includeEntry) (UserOptions.ignore userOptions))
      (StringOrList.list ["node_modules"])
  let ignore := arrayify ignoreOption
  let ext :=
    nullishD (nullish (UserIncludeEntry.ext includeEntry) (UserOptions.ext userOptions))
      ["js", "map", "jsbundle", "bundle"]
  let dotPrefixedExt := ext.map dotPrefixed
  { paths := UserIncludeEntry.paths includeEntry
    ignore := ignore
    ignoreFile :=
      nullish (UserIncludeEntry.ignoreFile includeEntry) (UserOptions.ignoreFile userOptions)
    ext := dotPrefixedExt
    urlPrefix :=
      nullish ( UserIncludeEntry.urlPrefix includeEntry) ( UserOptions.urlPrefix userOptions)
    urlSuffix :=
      nullish (UserIncludeEntry.urlSuffix includeEntry) (UserOptions.urlSuffix userOptions)
    stripPrefix :=
      nullish ( UserIncludeEntry.stripPrefix includeEntry) ( UserOptions.stripPrefix userOptions)
    stripCommonPrefix :=
      nullishD (nullish ( UserIncludeEntry.stripCommonPrefix includeEntry)
        ( UserOptions.stripCommonPrefix userOptions)) false
    sourceMapReference :=
      nullishD (nullish (UserIncludeEntry.sourceMapReference includeEntry)
        (UserOptions.sourceMapReference userOptions)) true
    rewrite :=
      nullishD (nullish (UserIncludeEntry.rewrite includeEntry)
        (UserOptions.rewrite userOptions)) true
    validate :=
      nullishD (nullish (UserIncludeEntry.validate includeEntry)
        (UserOptions.validate userOptions)) false }

/-- `normalizeInclude`: shape-unify the `include` option into a list of
`UserIncludeEntry` values, then normalize each against the full options. -/
def normalizeInclude (userOptions : UserOptions) : List InternalIncludeEntry :=
  let userInclude : List UserIncludeEntry :=
    match UserOptions.«include» userOptions with
    | .path s => [convertIncludePathToIncludeEntry s]
    | .list xs => xs.map toUserIncludeEntry
    | .entry e => [e]
  userInclude.map (normalizeIncludeEntry userOptions)

/-- `normalizeEntries`: `undefined` stays `undefined`, a function or an
array passes through, a single bare matcher is wrapped into an array. -/
def normalizeEntries : Option UserEntries → Option InternalEntries
  | none => none
  | some (.fn f) => some (.fn f)
  | some (.list ms) => some (.list ms)
  | some (.single m) => some (.list [m])

/-- `normalizeUserOptions`: the top-level normalizer, with the ambient
environment snapshot passed explicitly. -/
def normalizeUserOptions (env : Env) (userOptions : UserOptions) : InternalOptions :=
  { «include» := normalizeInclude userOptions
    org := nullish (UserOptions.org userOptions) (Env.SENTRY_ORG env)
    project := nullish (UserOptions.project userOptions) (Env.SENTRY_PROJECT env)
    release :=
      nullishD (nullish (UserOptions.release userOptions) (Env.SENTRY_RELEASE env)) ""
    authToken := nullish (UserOptions.authToken userOptions) (Env.SENTRY_AUTH_TOKEN env)
    customHeader := nullish (UserOptions.customHeader userOptions) (Env.CUSTOM_HEADER env)
    url :=
      nullishD (nullish (UserOptions.url userOptions) (Env.SENTRY_URL env)) "https://sentry.io/"
    vcsRemote :=
      nullishD (nullish (UserOptions.vcsRemote userOptions) (Env.SENTRY_VCS_REMOTE env)) "origin"
    finalize := nullishD (UserOptions.finalize userOptions) true
    cleanArtifacts := nullishD (UserOptions.cleanArtifacts userOptions) false
    dryRun := nullishD (UserOptions.dryRun userOptions) false
    debug := nullishD (UserOptions.debug userOptions) false
    silent := nullishD (UserOptions.silent userOptions) false
    telemetry := nullishD (UserOptions.telemetry userOptions) true
    injectReleasesMap := nullishD (UserOptions.injectReleasesMap userOptions) false
    setCommits := UserOptions.setCommits userOptions
    deploy := UserOptions.deploy userOptions
    entries := normalizeEntries (UserOptions.entries userOptions)
    dist := UserOptions.dist userOptions
    errorHandler := UserOptions.errorHandler userOptions
    configFile := UserOptions.configFile userOptions }

/-- The spec's per-field hoisting rule, written from the spec's words:
resolve each optional field by priority order, the entry's own value if
present, otherwise the corresponding top-level field, otherwise the
hardcoded default. -/
def specResolveField {α : Type} (entryValue topValue : Option α) (dflt : α) : α :=
  match entryValue with
  | some v => v
  | none =>
    match topValue with
    | some v => v
    | none => dflt

/-- The spec's hoisting rule for fields with no hardcoded default: the
entry's own value if present, otherwise the top-level value, otherwise
the field remains unset. -/
def specResolveOptField {α : Type} (entryValue topValue : Option α) : Option α :=
  match entryValue with
  | some v => some v
  | none => topValue

/-- Does a string begin with a (at least one) literal dot? -/
def beginsWithDot (s : String) : Bool :=
  match s.data with
  | [] => false
  | c :: _ => c = '.'

/-- Does a string begin with exactly one leading dot (a dot not followed
by another dot)? -/
def beginsWithExactlyOneDot (s : String) : Bool :=
  match s.data with
  | [] => false
  | [c] => c = '.'
  | c :: d :: _ => c = '.' ∧ ¬ (d = '.')

/-- Concrete options value used to instantiate universally quantified
theorems: a bare path `include`, everything else omitted. -/
def uoW : UserOptions :=
  { «include» := UserInclude.path "dist" }

/-- Concrete include entry with only `paths` set. -/
def entryW : UserIncludeEntry :=
  { paths := ["dist"] }

/-- Empty environment snapshot: no variables set. -/
def envNone : Env := {}

/- ===================== helper lemmas ===================== -/

/-- The coalescing chain used by the code coincides with the spec's
three-layer resolution rule. -/
theorem nullishD_nullish_eq_spec {α : Type} (a b : Option α) (d : α) :
    nullishD (nullish a b) d = specResolveField a b d := by
  cases a <;> cases b <;> rfl

/-- A single coalescing step coincides with the spec's two-layer rule for
fields without a hardcoded default. -/
theorem nullish_eq_specOpt {α : Type} (a b : Option α) :
    nullish a b = specResolveOptField a b := by
  cases a <;> rfl

/-- Defaulting the two-layer rule yields the three-layer rule. -/
theorem nullishD_specOpt_eq_spec {α : Type} (a b : Option α) (d : α) :
    nullishD (specResolveOptField a b) d = specResolveField a b d := by
  cases a <;> cases b <;> rfl

/-- The output of the dot-coercion always begins with a dot. -/
theorem beginsWithDot_dotPrefixed (s : String) :
    beginsWithDot (dotPrefixed s) = true := rfl

/-- The dot-coercion fixes any string that already begins with a dot. -/
theorem dotPrefixed_of_beginsWithDot (s : String) (h : beginsWithDot s = true) :
    dotPrefixed s = s := by
  obtain ⟨data⟩ := s
  cases data with
  | nil => simp [beginsWithDot] at h
  | cons c rest =>
    have hc : c = '.' := by simpa [beginsWithDot] using h
    subst hc
    rfl

/-- Mapping the dot-coercion over a list of already-dotted strings is the
identity. -/
theorem map_dotPrefixed_of_all_dotted (l : List String)
    (h : ∀ s ∈ l, beginsWithDot s = true) : List.map dotPrefixed l = l := by
  induction l with
  | nil => rfl
  | cons a as ih =>
    simp only [List.map_cons]
    rw [dotPrefixed_of_beginsWithDot a (h a (List.mem_cons_self a as)),
      ih (fun s hs => h s (List.mem_cons_of_mem a hs))]

/- ===================== claim theorems ===================== -/

/-- Claim C1: for every user options value and every include entry, each
optional entry field of the normalized entry is resolved by the priority
order entry value, then top-level value, then hardcoded default
(`ignore` to `["node_modules"]` before array-wrapping, `ext` to
`["js","map","jsbundle","bundle"]` before dot-coercion,
`stripCommonPrefix` to false, `sourceMapReference` to true, `rewrite` to
true, `validate` to false); `ignoreFile`, `urlPrefix`, `urlSuffix` and
`stripPrefix` remain unset when neither the entry nor the top level
supplies them. -/
theorem include_entry_hoisting_priority (uo : UserOptions) (e : UserIncludeEntry) :
    InternalIncludeEntry.ignore (normalizeIncludeEntry uo e)
      = arrayify (specResolveField (UserIncludeEntry.ignore e) (UserOptions.ignore uo)
          (StringOrList.list ["node_modules"]))
    ∧ InternalIncludeEntry.ext (normalizeIncludeEntry uo e)
      = List.map dotPrefixed (specResolveField (UserIncludeEntry.ext e) (UserOptions.ext uo)
          ["js", "map", "jsbundle", "bundle"])
    ∧ InternalIncludeEntry.stripCommonPrefix (normalizeIncludeEntry uo e)
      = specResolveField ( UserIncludeEntry.stripCommonPrefix e)
          ( UserOptions.stripCommonPrefix uo) false
    ∧ InternalIncludeEntry.sourceMapReference (normalizeIncludeEntry uo e)
      = specResolveField (UserIncludeEntry.sourceMapReference e)
          (UserOptions.sourceMapReference uo) true
    ∧ InternalIncludeEntry.rewrite (normalizeIncludeEntry uo e)
      = specResolveField (UserIncludeEntry.rewrite e) (UserOptions.rewrite uo) true
    ∧ InternalIncludeEntry.validate (normalizeIncludeEntry uo e)
      = specResolveField (UserIncludeEntry.validate e) (UserOptions.validate uo) false
    ∧ InternalIncludeEntry.ignoreFile (normalizeIncludeEntry uo e)
      = specResolveOptField (UserIncludeEntry.ignoreFile e) (UserOptions.ignoreFile uo)
    ∧ InternalIncludeEntry.urlPrefix (normalizeIncludeEntry uo e)
      = specResolveOptField ( UserIncludeEntry.urlPrefix e) ( UserOptions.urlPrefix uo)
    ∧ InternalIncludeEntry.urlSuffix (normalizeIncludeEntry uo e)
      = specResolveOptField (UserIncludeEntry.urlSuffix e) (UserOptions.urlSuffix uo)
    ∧ InternalIncludeEntry.stripPrefix (normalizeIncludeEntry uo e)
      = specResolveOptField ( UserIncludeEntry.stripPrefix e) ( UserOptions.stripPrefix uo) := by
  refine ⟨?_, ?_, ?_, ?_, ?_, ?_, ?_, ?_, ?_, ?_⟩ <;>
    simp [normalizeIncludeEntry, nullish_eq_specOpt, nullishD_specOpt_eq_spec]

/-- Include entry whose `ext` carries a doubly-dotted extension, exercising
the single-strip behaviour of the coercion. -/
def entryDotDot : UserIncludeEntry :=
  { paths := ["a"], ext := some ["..js"] }

/-- Claim C2, counterexample: with `ext := ["..js"]` the normalized entry
keeps the string `"..js"`, which does not begin with exactly one leading
dot; the claim that every output ext string begins with exactly one
leading dot is false. -/
theorem ext_exactly_one_dot_cex :
    InternalIncludeEntry.ext (normalizeIncludeEntry uoW entryDotDot) = ["..js"]
    ∧ beginsWithExactlyOneDot "..js" = false := by
  exact ⟨rfl, rfl⟩

/-- Claim C2 (amended): every string in the ext sequence of a normalized
include entry begins with at least one leading dot; it begins with
exactly one whenever the resolved input string carried at most one
leading dot. -/
theorem ext_begins_with_dot (uo : UserOptions) (e : UserIncludeEntry) (s : String)
    (hs : s ∈ InternalIncludeEntry.ext (normalizeIncludeEntry uo e)) :
    beginsWithDot s = true := by
  have hext : InternalIncludeEntry.ext (normalizeIncludeEntry uo e)
      = List.map dotPrefixed
          (nullishD (nullish (UserIncludeEntry.ext e) (UserOptions.ext uo))
            ["js", "map", "jsbundle", "bundle"]) := rfl
  rw [hext] at hs
  obtain ⟨t, -, rfl⟩ := List.mem_map.mp hs
  exact beginsWithDot_dotPrefixed t

/-- Witness for the amended C2: instantiated at an entry with no `ext`,
the default extension `".js"` is in the output and begins with a dot. -/
theorem ext_begins_with_dot_witness : beginsWithDot ".js" = true :=
  ext_begins_with_dot uoW entryW ".js" (by decide)

/-- Options value whose `include` is an explicitly empty sequence. -/
def uoEmptyList : UserOptions :=
  { «include» := UserInclude.list [] }

/-- Claim C3, counterexample: with `include` provided as the empty
sequence, the normalized include is empty, refuting the claim that the
output contains at least one entry whenever `include` is provided. -/
theorem include_empty_list_cex :
    UserOptions.«include» uoEmptyList = UserInclude.list []
    ∧ normalizeInclude uoEmptyList = [] :=
  ⟨rfl, rfl⟩

/-- Claim C3 (amended): the normalized include has exactly one entry when
`include` is a path string or a single entry object, and exactly as many
entries as the input sequence when it is a sequence; in particular it is
non-empty whenever `include` is not an empty sequence. -/
theorem include_output_length (uo : UserOptions) :
    List.length (normalizeInclude uo)
      = match UserOptions.«include» uo with
        | UserInclude.path _ => 1
        | UserInclude.entry _ => 1
        | UserInclude.list xs => List.length xs := by
  cases h : UserOptions.«include» uo <;> simp [normalizeInclude, h]

/-- Claim C4: `entries` normalization maps unset to unset, passes a
predicate function and an ordered sequence through unchanged, and wraps a
single bare matcher into a one-element sequence. -/
theorem entries_normalization_cases :
    normalizeEntries none = none
    ∧ (∀ f : String → Bool,
        normalizeEntries (some (UserEntries.fn f)) = some (InternalEntries.fn f))
    ∧ (∀ ms : List Matcher,
        normalizeEntries (some (UserEntries.list ms)) = some (InternalEntries.list ms))
    ∧ (∀ m : Matcher,
        normalizeEntries (some (UserEntries.single m)) = some (InternalEntries.list [m])) :=
  ⟨rfl, fun _ => rfl, fun _ => rfl, fun _ => rfl⟩

/-- Claim C5: an entry that explicitly supplies an empty sequence for
`ignore` or for `ext` keeps that empty sequence; neither the hardcoded
default nor the top-level fallback is applied. -/
theorem explicit_empty_overrides_default (uo : UserOptions) (e : UserIncludeEntry) :
    (UserIncludeEntry.ignore e = some (StringOrList.list []) →
      InternalIncludeEntry.ignore (normalizeIncludeEntry uo e) = [])
    ∧ (UserIncludeEntry.ext e = some [] →
      InternalIncludeEntry.ext (normalizeIncludeEntry uo e) = []) := by
  constructor
  · intro h
    simp [normalizeIncludeEntry, h, nullish, nullishD, arrayify]
  · intro h
    simp [normalizeIncludeEntry, h, nullish, nullishD]

/-- Include entry with explicitly empty `ignore` and `ext` sequences. -/
def entryEmptyBoth : UserIncludeEntry :=
  { paths := ["a"], ignore := some (StringOrList.list []), ext := some [] }

/-- Witness for C5 at a concrete entry with both sequences empty. -/
theorem explicit_empty_overrides_default_witness :
    InternalIncludeEntry.ignore (normalizeIncludeEntry uoW entryEmptyBoth) = []
    ∧ InternalIncludeEntry.ext (normalizeIncludeEntry uoW entryEmptyBoth) = [] :=
  ⟨(explicit_empty_overrides_default uoW entryEmptyBoth).1 rfl,
   (explicit_empty_overrides_default uoW entryEmptyBoth).2 rfl⟩

/-- Claim C6: normalizing an entry whose `ext` already consists of
dot-prefixed strings yields an ext sequence equal to the input, element
for element and in order. -/
theorem ext_coercion_idempotent (uo : UserOptions) (e : UserIncludeEntry) (l : List String)
    (hext : UserIncludeEntry.ext e = some l)
    (hdot : ∀ s ∈ l, beginsWithDot s = true) :
    InternalIncludeEntry.ext (normalizeIncludeEntry uo e) = l := by
  have h1 : InternalIncludeEntry.ext (normalizeIncludeEntry uo e)
      = List.map dotPrefixed
          (nullishD (nullish (UserIncludeEntry.ext e) (UserOptions.ext uo))
            ["js", "map", "jsbundle", "bundle"]) := rfl
  rw [h1, hext]
  exact map_dotPrefixed_of_all_dotted l hdot

/-- Include entry whose `ext` is already dot-prefixed. -/
def entryDotExt : UserIncludeEntry :=
  { paths := ["a"], ext := some [".js", ".map"] }

/-- Witness for C6 at a concrete already-dotted `ext` sequence. -/
theorem ext_coercion_idempotent_witness :
    InternalIncludeEntry.ext (normalizeIncludeEntry uoW entryDotExt) = [".js", ".map"] :=
  ext_coercion_idempotent uoW entryDotExt [".js", ".map"] rfl (by decide)

/-- Claim C7: the output `release` is the user value if present, else the
`SENTRY_RELEASE` environment variable if present, else the empty
string. -/
theorem release_resolution (env : Env) (uo : UserOptions) :
    (∀ r, UserOptions.release uo = some r →
      InternalOptions.release (normalizeUserOptions env uo) = r)
    ∧ (∀ r, UserOptions.release uo = none → Env.SENTRY_RELEASE env = some r →
      InternalOptions.release (normalizeUserOptions env uo) = r)
    ∧ (UserOptions.release uo = none → Env.SENTRY_RELEASE env = none →
      InternalOptions.release (normalizeUserOptions env uo) = "") := by
  refine ⟨?_, ?_, ?_⟩ <;> intros <;> simp_all [normalizeUserOptions, nullish, nullishD]

/-- Witness for C7: with no user release and no environment release, the
output release is the empty string. -/
theorem release_resolution_witness :
    InternalOptions.release (normalizeUserOptions envNone uoW) = "" :=
  (release_resolution envNone uoW).2.2 rfl rfl

/-- Claim C8: the boolean scalars default to `finalize = true`,
`telemetry = true`, `cleanArtifacts = false`, `dryRun = false`,
`debug = false`, `silent = false`, `injectReleasesMap = false` when the
user omits them, and a supplied user value is returned unchanged. -/
theorem boolean_scalar_defaults (env : Env) (uo : UserOptions) :
    (UserOptions.finalize uo = none →
      InternalOptions.finalize (normalizeUserOptions env uo) = true)
    ∧ (∀ b, UserOptions.finalize uo = some b →
      InternalOptions.finalize (normalizeUserOptions env uo) = b)
    ∧ (UserOptions.telemetry uo = none →
      InternalOptions.telemetry (normalizeUserOptions env uo) = true)
    ∧ (∀ b, UserOptions.telemetry uo = some b →
      InternalOptions.telemetry (normalizeUserOptions env uo) = b)
    ∧ (UserOptions.cleanArtifacts uo = none →
      InternalOptions.cleanArtifacts (normalizeUserOptions env uo) = false)
    ∧ (∀ b, UserOptions.cleanArtifacts uo = some b →
      InternalOptions.cleanArtifacts (normalizeUserOptions env uo) = b)
    ∧ (UserOptions.dryRun uo = none →
      InternalOptions.dryRun (normalizeUserOptions env uo) = false)
    ∧ (∀ b, UserOptions.dryRun uo = some b →
      InternalOptions.dryRun (normalizeUserOptions env uo) = b)
    ∧ (UserOptions.debug uo = none →
      InternalOptions.debug (normalizeUserOptions env uo) = false)
    ∧ (∀ b, UserOptions.debug uo = some b →
      InternalOptions.debug (normalizeUserOptions env uo) = b)
    ∧ (UserOptions.silent uo = none →
      InternalOptions.silent (normalizeUserOptions env uo) = false)
    ∧ (∀ b, UserOptions.silent uo = some b →
      InternalOptions.silent (normalizeUserOptions env uo) = b)
    ∧ (UserOptions.injectReleasesMap uo = none →
      InternalOptions.injectReleasesMap (normalizeUserOptions env uo) = false)
    ∧ (∀ b, UserOptions.injectReleasesMap uo = some b →
      InternalOptions.injectReleasesMap (normalizeUserOptions env uo) = b) := by
  refine ⟨?_, ?_, ?_, ?_, ?_, ?_, ?_, ?_, ?_, ?_, ?_, ?_, ?_, ?_⟩ <;>
    intros <;> simp_all [normalizeUserOptions, nullishD]

/-- Options value supplying every boolean scalar with the value opposite
to its default. -/
def uoAllBools : UserOptions :=
  { «include» := UserInclude.path "dist", finalize := some false, telemetry := some false,
    cleanArtifacts := some true, dryRun := some true, debug := some true, silent := some true,
    injectReleasesMap := some true }

/-- Witness for C8: omitted booleans take the defaults, supplied booleans
pass through unchanged. -/
theorem boolean_scalar_defaults_witness :
    (InternalOptions.finalize (normalizeUserOptions envNone uoW) = true
      ∧ InternalOptions.telemetry (normalizeUserOptions envNone uoW) = true
      ∧ InternalOptions.cleanArtifacts (normalizeUserOptions envNone uoW) = false
      ∧ InternalOptions.dryRun (normalizeUserOptions envNone uoW) = false
      ∧ InternalOptions.debug (normalizeUserOptions envNone uoW) = false
      ∧ InternalOptions.silent (normalizeUserOptions envNone uoW) = false
      ∧ InternalOptions.injectReleasesMap (normalizeUserOptions envNone uoW) = false)
    ∧ (InternalOptions.finalize (normalizeUserOptions envNone uoAllBools) = false
      ∧ InternalOptions.telemetry (normalizeUserOptions envNone uoAllBools) = false
      ∧ InternalOptions.cleanArtifacts (normalizeUserOptions envNone uoAllBools) = true
      ∧ InternalOptions.dryRun (normalizeUserOptions envNone uoAllBools) = true
      ∧ InternalOptions.debug (normalizeUserOptions envNone uoAllBools) = true
      ∧ InternalOptions.silent (normalizeUserOptions envNone uoAllBools) = true
      ∧ InternalOptions.injectReleasesMap (normalizeUserOptions envNone uoAllBools) = true) := by
  have h1 := boolean_scalar_defaults envNone uoW
  have h2 := boolean_scalar_defaults envNone uoAllBools
  obtain ⟨a1, -, a2, -, a3, -, a4, -, a5, -, a6, -, a7, -⟩ := h1
  obtain ⟨-, b1, -, b2, -, b3, -, b4, -, b5, -, b6, -, b7⟩ := h2
  exact ⟨⟨a1 rfl, a2 rfl, a3 rfl, a4 rfl, a5 rfl, a6 rfl, a7 rfl⟩,
    ⟨b1 false rfl, b2 false rfl, b3 true rfl, b4 true rfl, b5 true rfl, b6 true rfl,
      b7 true rfl⟩⟩

/-- Claim C9: when `include` is a sequence, the normalized include has the
same length, and its i-th element is the normalization of the i-th input
element (strings converted to single-path entries, objects normalized in
place). -/
theorem include_list_pointwise (uo : UserOptions) (xs : List (String ⊕ UserIncludeEntry))
    (h : UserOptions.«include» uo = UserInclude.list xs) :
    List.length (normalizeInclude uo) = List.length xs
    ∧ ∀ i : Nat, (normalizeInclude uo)[i]?
        = Option.map (fun x => normalizeIncludeEntry uo (toUserIncludeEntry x))
            xs[i]? := by
  constructor
  · simp [normalizeInclude, h]
  · intro i
    simp [normalizeInclude, h, List.getElem?_map, Option.map_map, Function.comp_def]

/-- Concrete `include` sequence with one bare string and one entry
object. -/
def xsW : List (String ⊕ UserIncludeEntry) :=
  [Sum.inl "a.js", Sum.inr { paths := ["b.js"], validate := some true }]

/-- Options value whose `include` is the sequence `xsW`. -/
def uoList : UserOptions :=
  { «include» := UserInclude.list xsW, urlPrefix := some "~/" }

/-- Witness for C9 at the two-element sequence `xsW`. -/
theorem include_list_pointwise_witness :
    List.length (normalizeInclude uoList) = List.length xsW
    ∧ (normalizeInclude uoList)[0]?
        = Option.map (fun x => normalizeIncludeEntry uoList (toUserIncludeEntry x))
            xsW[0]? := by
  have h := include_list_pointwise uoList xsW rfl
  exact ⟨h.1, h.2 0⟩

/-- Include entry whose `ext` has a doubly-dotted extension and an empty
extension. -/
def entryMultiDot : UserIncludeEntry :=
  { paths := ["a"], ext := some ["..js", ""] }

/-- Claim C10: the dot-coercion strips at most one leading dot before
prepending one, so a string beginning with two or more dots is unchanged,
and the empty extension becomes the single-character string `"."`; in
particular an entry with `ext := ["..js", ""]` normalizes to
`["..js", "."]`. -/
theorem dot_coercion_at_most_one_strip :
    (∀ rest : List Char,
      dotPrefixed (String.mk ('.' :: '.' :: rest)) = String.mk ('.' :: '.' :: rest))
    ∧ dotPrefixed "" = "."
    ∧ InternalIncludeEntry.ext (normalizeIncludeEntry uoW entryMultiDot) = ["..js", "."] := by
  refine ⟨fun rest => rfl, rfl, rfl⟩

end SentryUnplugin
